import Mathlib

/-!
Shallow embedding of the GCash PDF statement parser
(src/parsers/GCashPDFParser.ts) and proofs about it.

Strings are Lean `String` values; page-space coordinates are rationals
(the source uses JavaScript numbers only for ordering, midpoints and
interval tests, which the exact rational arithmetic reproduces).
JavaScript-specific semantics that the source relies on are modelled
explicitly and marked with comments: the whitespace class of `\s`,
`String.prototype.trim`, the falsiness of `0` and `undefined` in
`debitColumn?.minX || 500`, and the backtracking behaviour of the two
regular expressions.
-/

/-- The JavaScript `\s` character class (also the set stripped by
`String.prototype.trim`): ASCII whitespace, NBSP, the Unicode space
separators, the line separators and the BOM. -/
def isJsWs (c : Char) : Bool :=
  c = ' ' || c = '\t' || c = '\n' || c.toNat = 0x0b || c.toNat = 0x0c || c = '\r' ||
  c.toNat = 0xa0 || c.toNat = 0x1680 ||
  (0x2000 <= c.toNat && c.toNat <= 0x200a) ||
  c.toNat = 0x2028 || c.toNat = 0x2029 || c.toNat = 0x202f || c.toNat = 0x205f ||
  c.toNat = 0x3000 || c.toNat = 0xfeff

/-- JavaScript line terminators, the characters `.` does not match. -/
def isLineTerm (c : Char) : Bool :=
  c = '\n' || c = '\r' || c.toNat = 0x2028 || c.toNat = 0x2029

/-- Drop trailing JS whitespace: second half of `String.prototype.trim`. -/
def dropTrailingWs (l : List Char) : List Char :=
  (l.reverse.dropWhile isJsWs).reverse

/-- `String.prototype.trim` on the character list. -/
def jsTrim (l : List Char) : List Char :=
  dropTrailingWs (l.dropWhile isJsWs)

/-- `String.prototype.trim` at the `String` level. -/
def jsTrimS (s : String) : String :=
  String.mk (jsTrim s.data)

/-- Is `pat` a (contiguous) prefix of `l`? -/
def listStartsWith : List Char → List Char → Bool
  | [], _ => true
  | _ :: _, [] => false
  | p :: ps, c :: cs => p = c && listStartsWith ps cs

/-- `String.prototype.includes`: does `s` contain `pat` as a contiguous
substring? -/
def strContainsAux (pat : List Char) : List Char → Bool
  | [] => listStartsWith pat []
  | c :: cs => listStartsWith pat (c :: cs) || strContainsAux pat cs

/-- `s.includes(pat)` from JavaScript. -/
def containsSub (s pat : String) : Bool :=
  strContainsAux pat.data s.data

/-- `Array.prototype.join(" ")`. -/
def joinSpace (ss : List String) : String :=
  String.intercalate " " ss

/-- Exact rational subtraction `a - b`, written with `mkRat` because the
library field operations on `Rat` are irreducible and would block kernel
evaluation; `ratSub_eq` below identifies it with `a - b`. -/
def ratSub (a b : ℚ) : ℚ :=
  mkRat (a.num * b.den - b.num * a.den) (a.den * b.den)

/-- `Math.abs`. -/
def ratAbs (q : ℚ) : ℚ :=
  if q < 0 then -q else q

/-- The boundary computation `current.x + (next.x - current.x) / 2` of
the source, written with `mkRat` for the same reason as `ratSub`;
`ratMidStep_eq` identifies it with the field expression. -/
def ratMidStep (a b : ℚ) : ℚ :=
  mkRat (a.num * b.den + b.num * a.den) (2 * a.den * b.den)

/-- A positioned text fragment from one PDF page (interface `TextItem`;
the fields `dir`, `transform`, `height` and `fontName` are never read by
the extraction logic and are omitted). -/
structure TextItem where
  str : String
  x : ℚ
  y : ℚ
  width : ℚ
deriving DecidableEq, Repr

/-- The value of the optional `maxX` field of `ColumnInfo`: unset,
a finite number, or `Number.POSITIVE_INFINITY`. -/
inductive XBound where
  | undef : XBound
  | fin : ℚ → XBound
  | posInf : XBound
deriving DecidableEq, Repr

/-- Interface `ColumnInfo`: `minX`/`maxX` start out unset (`none` /
`XBound.undef`) and are filled in by `computeColumnBoundaries`. -/
structure ColumnInfo where
  name : String
  x : ℚ
  width : ℚ
  minX : Option ℚ
  maxX : XBound
deriving DecidableEq, Repr

/-- Interface `HeaderEntry`. -/
structure HeaderEntry where
  entryNo : Nat
  dateTime : String
  description : String
  referenceNo : String
deriving DecidableEq, Repr

/-- Interface `NumericEntry`. -/
structure NumericEntry where
  entryNo : Nat
  debit : String
  credit : String
  balance : String
deriving DecidableEq, Repr

/-- Interface `Transaction` (models/Transaction). -/
structure Transaction where
  dateTime : String
  description : String
  referenceNo : String
  debit : String
  credit : String
  balance : String
deriving DecidableEq, Repr

/-- The six expected column header names. -/
def sixColumnNames : List String :=
  ["Date and Time", "Description", "Reference No", "Debit", "Credit", "Balance"]

/-- The predicate of the `findIndex` call in `identifyColumnPositions`.
Note that the source tests only five of the six column names here:
"Description" is absent from this disjunction. -/
def fiveNamePred (s : String) : Bool :=
  containsSub s "Date and Time" || containsSub s "Reference No" ||
  containsSub s "Debit" || containsSub s "Credit" || containsSub s "Balance"

/-- The fixed fallback column layout of `identifyColumnPositions`. -/
def defaultColumnPositions : List ColumnInfo :=
  [ { name := "Date and Time", x := 0, width := 150, minX := none, maxX := .undef },
    { name := "Description", x := 150, width := 250, minX := none, maxX := .undef },
    { name := "Reference No", x := 400, width := 100, minX := none, maxX := .undef },
    { name := "Debit", x := 500, width := 80, minX := none, maxX := .undef },
    { name := "Credit", x := 580, width := 80, minX := none, maxX := .undef },
    { name := "Balance", x := 660, width := 80, minX := none, maxX := .undef } ]

/-- The header-row fragments collected once `findIndex` has located the
fragment `hdr`: all fragments within vertical distance `< 2` of `hdr`
whose text contains one of the six column names, each turned into a
`ColumnInfo` named by its trimmed text. -/
def headerColumnsFrom (items : List TextItem) (hdr : TextItem) : List ColumnInfo :=
  (items.filter fun it =>
      decide (ratAbs (ratSub it.y hdr.y) < 2) &&
      sixColumnNames.any (fun h => containsSub it.str h)).map
    fun it => { name := jsTrimS it.str, x := it.x, width := it.width,
                minX := none, maxX := .undef }

/-- `identifyColumnPositions`: the `findIndex` over `items` followed by the
access `items[headerRowIndex]` is rendered as `List.find?`. -/
def identifyColumnPositions (items : List TextItem) : List ColumnInfo :=
  match items.find? (fun it => fiveNamePred it.str) with
  | some hdr => headerColumnsFrom items hdr
  | none => defaultColumnPositions

/-- The `boundaries` array of `computeColumnBoundaries`:
`boundaries[i] = cols[i].x + (cols[i+1].x - cols[i].x) / 2`. -/
def boundariesOf (cols : List ColumnInfo) : List ℚ :=
  List.zipWith (fun cur next => ratMidStep cur.x next.x) cols cols.tail

/-- The `forEach` of `computeColumnBoundaries` assigning `minX`/`maxX`
from the `boundaries` array by index. -/
def setBounds (cols : List ColumnInfo) : List ColumnInfo :=
  (List.range cols.length).map fun idx =>
    let col := cols.getD idx { name := "", x := 0, width := 0, minX := none, maxX := .undef }
    { col with
      minX := some (if idx = 0 then 0 else (boundariesOf cols).getD (idx - 1) 0),
      maxX := if idx = cols.length - 1 then XBound.posInf
              else XBound.fin ((boundariesOf cols).getD idx 0) }

/-- `computeColumnBoundaries`: sort by `x` ascending, then assign the
half-open intervals. JS `sort` with this comparator is a stable sort, and
a stable sort of a list is unique, so the structural `insertionSort`
(stable: `orderedInsert` puts the earlier element before later equal
ones) computes exactly the same column order. -/
def computeColumnBoundaries (cols : List ColumnInfo) : List ColumnInfo :=
  setBounds (cols.insertionSort (fun a b => a.x ≤ b.x))

/-- Match exactly `n` characters of the class given by `p`, as in the
regex pieces `\d{4}`, `\d{13}`, `\s{3}`. Returns the consumed characters
and the rest. -/
def takeExactClass (p : Char → Bool) : Nat → List Char → Option (List Char × List Char)
  | 0, cs => some ([], cs)
  | _ + 1, [] => none
  | n + 1, c :: cs =>
    if p c then
      match takeExactClass p n cs with
      | some (t, r) => some (c :: t, r)
      | none => none
    else none

/-- Match one literal character. -/
def takeLit (a : Char) : List Char → Option (List Char × List Char)
  | [] => none
  | c :: cs => if c = a then some ([c], cs) else none

/-- Greedy `\s+`. In the date/time pattern each `\s+` is followed by a
digit or by `[AP]`, both disjoint from `\s`, so the greedy match never
needs to backtrack and is a plain `takeWhile`. -/
def takeWsPlus (cs : List Char) : Option (List Char × List Char) :=
  let t := cs.takeWhile isJsWs
  if t.isEmpty then none else some (t, cs.dropWhile isJsWs)

/-- `\d{1,2}:` with the greedy choice resolved: two digits are taken
exactly when a colon follows them; backtracking from two digits to one
can never succeed because the second digit is not a colon. -/
def takeHourColon : List Char → Option (List Char × List Char)
  | a :: b :: rest =>
    if a.isDigit then
      if b = ':' then some ([a, b], rest)
      else if b.isDigit then
        match rest with
        | c :: r2 => if c = ':' then some ([a, b, c], r2) else none
        | [] => none
      else none
    else none
  | _ => none

/-- `[AP]M`. -/
def takeAmPm : List Char → Option (List Char × List Char)
  | a :: b :: rest => if (a = 'A' || a = 'P') && b = 'M' then some ([a, b], rest) else none
  | _ => none

/-- The date/time pattern `\d{4}-\d{2}-\d{2}\s+\d{1,2}:\d{2}\s+[AP]M`
matched at the start of `cs`. The pattern is rigid: no failure of a later
regex piece can be repaired by rematching an earlier one (each `\s+` is
followed by a non-whitespace class, and the `\d{1,2}` choice is settled
by the colon), so a single deterministic pass is the exact JS semantics. -/
def matchDateTime (cs : List Char) : Option (List Char × List Char) := do
  let (d1, r) ← takeExactClass Char.isDigit 4 cs
  let (h1, r) ← takeLit '-' r
  let (d2, r) ← takeExactClass Char.isDigit 2 r
  let (h2, r) ← takeLit '-' r
  let (d3, r) ← takeExactClass Char.isDigit 2 r
  let (w1, r) ← takeWsPlus r
  let (hc, r) ← takeHourColon r
  let (d4, r) ← takeExactClass Char.isDigit 2 r
  let (w2, r) ← takeWsPlus r
  let (ap, r) ← takeAmPm r
  return (d1 ++ h1 ++ d2 ++ h2 ++ d3 ++ w1 ++ hc ++ d4 ++ w2 ++ ap, r)

/-- `RegExp.prototype.test` of the date/time pattern: an unanchored
search, trying every start position left to right. -/
def testDateTime : List Char → Bool
  | [] => false
  | c :: cs => (matchDateTime (c :: cs)).isSome || testDateTime cs

/-- The continuation `\s{3}(\d{13})` the lazy description group checks at
each candidate stop: returns `(separator, reference digits, rest)`. -/
def checkSep13 (cs : List Char) : Option (List Char × List Char × List Char) :=
  match takeExactClass isJsWs 3 cs with
  | none => none
  | some (sep, r) =>
    match takeExactClass Char.isDigit 13 r with
    | none => none
    | some (ds, r2) => some (sep, ds, r2)

/-- One step of the lazy loop: if the continuation `\s{3}(\d{13})`
matches here, stop; otherwise consume one more non-line-terminator
character (the `fallback`). -/
def lazyStep (accRev : List Char)
    (fallback : Option (List Char × List Char × List Char × List Char))
    (r : Option (List Char × List Char × List Char)) :
    Option (List Char × List Char × List Char × List Char) :=
  match r with
  | some (sep, ds, rest) => some (accRev.reverse, sep, ds, rest)
  | none => fallback

/-- The lazy group `(.+?)` after its first character has been consumed:
at each step first try the continuation `\s{3}(\d{13})`, and only when it
fails consume one more (non line terminator) character. `accRev` holds
the consumed characters in reverse. Returns
`(description, separator, reference digits, rest)`. -/
def lazyDescGo : List Char → List Char → Option (List Char × List Char × List Char × List Char)
  | accRev, [] => lazyStep accRev none (checkSep13 [])
  | accRev, c :: cs2 =>
    lazyStep accRev (if isLineTerm c then none else lazyDescGo (c :: accRev) cs2)
      (checkSep13 (c :: cs2))

/-- The lazy group `(.+?)\s{3}(\d{13})`: at least one character, lazily
extended. -/
def lazyDesc : List Char → Option (List Char × List Char × List Char × List Char)
  | [] => none
  | c :: cs => if isLineTerm c then none else lazyDescGo [c] cs

/-- One attempt of the header pattern
`(dateTime)\s{3}(.+?)\s{3}(\d{13})` anchored at the start of `cs`:
returns `(dateTime, description, reference, rest)`. -/
def tryMatchAt (cs : List Char) : Option (List Char × List Char × List Char × List Char) :=
  match matchDateTime cs with
  | none => none
  | some (dt, r1) =>
    match takeExactClass isJsWs 3 r1 with
    | none => none
    | some (_, r2) =>
      match lazyDesc r2 with
      | none => none
      | some (desc, _, ref, rest) => some (dt, desc, ref, rest)

/-- The `exec` loop of `extractHeaderEntriesFromPageTexts`: scan start
positions left to right, and continue after the end of each match
(`lastIndex`). `fuel` bounds the recursion; every step either drops one
character or consumes a nonempty match, so `fuel = cs.length` never runs
out (proved below). `n` is the running `entryNo`. -/
def scanHeaders : Nat → Nat → List Char → List HeaderEntry
  | 0, _, _ => []
  | fuel + 1, n, cs =>
    match tryMatchAt cs with
    | some (dt, desc, ref, rest) =>
      { entryNo := n + 1,
        dateTime := jsTrimS (String.mk dt),
        description := jsTrimS (String.mk desc),
        referenceNo := jsTrimS (String.mk ref) } :: scanHeaders fuel (n + 1) rest
    | none =>
      match cs with
      | [] => []
      | _ :: cs2 => scanHeaders fuel n cs2

/-- `extractHeaderEntriesFromPageTexts`: the page texts are joined with
newlines and the header pattern is scanned over the whole buffer. -/
def extractHeaderEntriesFromPageTexts (pageTexts : List String) : List HeaderEntry :=
  let combined := String.intercalate "\n" pageTexts
  scanHeaders combined.data.length 0 combined.data

/-- The splitting point of `extractNumericEntriesFromLineItems`:
`debitColumn?.minX || 500`. JavaScript `||` falls through to `500` both
when there is no column named "Debit", when its `minX` is still
undefined, and when `minX` is the falsy number `0`. -/
def debitXOf (cols : List ColumnInfo) : ℚ :=
  match cols.find? (fun col => col.name = "Debit") with
  | none => 500
  | some c =>
    match c.minX with
    | none => 500
    | some m => if m = 0 then 500 else m

/-- `xPos >= col.minX` with the JS cast of `undefined` comparing false. -/
def geMinX (xPos : ℚ) : Option ℚ → Bool
  | none => false
  | some m => decide (m ≤ xPos)

/-- `xPos < col.maxX` with `undefined` comparing false and
`POSITIVE_INFINITY` comparing true. -/
def ltMaxX (xPos : ℚ) : XBound → Bool
  | .undef => false
  | .fin m => decide (xPos < m)
  | .posInf => true

/-- The column among {Debit, Credit, Balance} whose `[minX, maxX)`
interval contains the x-coordinate of `it`, if any (the `relevantColumns`
filter followed by `find`). -/
def assignedColName (cols : List ColumnInfo) (it : TextItem) : Option String :=
  ((cols.filter fun c => c.name = "Debit" || c.name = "Credit" || c.name = "Balance").find?
      fun c => geMinX it.x c.minX && ltMaxX it.x c.maxX).map (fun c => c.name)

/-- The per-cluster body of the numeric-extraction loop. `none` when the
row is skipped (marker text, blank, no date/time match, or all three
numeric strings empty); otherwise the `(debit, credit, balance)` strings. -/
def processRow (cols : List ColumnInfo) (line : List TextItem) : Option (String × String × String) :=
  let lineText := joinSpace (line.map (fun it => it.str))
  if containsSub lineText "Date and Time" || containsSub lineText "STARTING BALANCE" ||
     containsSub lineText "ENDING BALANCE" || containsSub lineText "Total Debit" ||
     containsSub lineText "Total Credit" || (jsTrim lineText.data).isEmpty then
    none
  else if ! testDateTime lineText.data then
    none
  else
    let debitX := debitXOf cols
    let backItems := line.filter fun it => ! decide (it.x < debitX)
    let debitStr := jsTrimS (joinSpace ((backItems.filter fun it =>
      assignedColName cols it = some "Debit").map (fun it => it.str)))
    let creditStr := jsTrimS (joinSpace ((backItems.filter fun it =>
      assignedColName cols it = some "Credit").map (fun it => it.str)))
    let balanceStr := jsTrimS (joinSpace ((backItems.filter fun it =>
      assignedColName cols it = some "Balance").map (fun it => it.str)))
    if debitStr ≠ "" ∨ creditStr ≠ "" ∨ balanceStr ≠ "" then
      some (debitStr, creditStr, balanceStr)
    else none

/-- Greedy row clustering: try each existing cluster in order, comparing
against its first-inserted member with vertical tolerance 5; append to
the first close cluster, else start a new cluster at the end. -/
def addToClusters : List (List TextItem) → TextItem → List (List TextItem)
  | [], it => [[it]]
  | c :: cs, it =>
    match c.head? with
    | some h => if decide (ratAbs (ratSub it.y h.y) ≤ 5) then (c ++ [it]) :: cs
                else c :: addToClusters cs it
    | none => c :: addToClusters cs it

/-- Clusters of one page, in creation order, each sorted by `x` ascending
(items are first sorted by `y` descending; both JS sorts are stable, as
is `insertionSort`, so the outputs coincide). -/
def clustersOf (items : List TextItem) : List (List TextItem) :=
  ((items.insertionSort (fun a b => b.y ≤ a.y)).foldl addToClusters []).map
    (fun c => c.insertionSort (fun a b => a.x ≤ b.x))

/-- The numeric-entry emission loop over the clusters: `cnt` is the
running `numericEntryCount`. -/
def emitNumeric (cols : List ColumnInfo) : Nat → List (List TextItem) → List NumericEntry
  | _, [] => []
  | cnt, line :: rest =>
    match processRow cols line with
    | some (d, c, b) =>
      { entryNo := cnt + 1, debit := d, credit := c, balance := b } ::
        emitNumeric cols (cnt + 1) rest
    | none => emitNumeric cols cnt rest

/-- `extractNumericEntriesFromLineItems` for one page, starting from the
current accumulated entry count. -/
def extractNumericFromItems (cols : List ColumnInfo) (startCount : Nat)
    (items : List TextItem) : List NumericEntry :=
  emitNumeric cols startCount (clustersOf items)

/-- The merge loop of `parse`: a positional zip up to
`min(headerEntries.length, numericEntries.length)`. -/
def mergeEntries (hs : List HeaderEntry) (ns : List NumericEntry) : List Transaction :=
  List.zipWith
    (fun h n => { dateTime := h.dateTime, description := h.description,
                  referenceNo := h.referenceNo, debit := n.debit,
                  credit := n.credit, balance := n.balance })
    hs ns

/-- The mutable fields of a `GCashPDFParser` instance that the extraction
pipeline reads or writes. -/
structure ParserState where
  transactions : List Transaction
  pageTexts : List String
  columnPositions : List ColumnInfo
  numericEntries : List NumericEntry
deriving DecidableEq, Repr

/-- The field initializers of the `GCashPDFParser` constructor. -/
def initialState : ParserState :=
  { transactions := [], pageTexts := [], columnPositions := [], numericEntries := [] }

/-- `getTransactions`. -/
def getTransactions (st : ParserState) : List Transaction :=
  st.transactions

/-- `getPageTexts`. -/
def getPageTexts (st : ParserState) : List String :=
  st.pageTexts

/-- The result of the external PDF decode: either the document fails to
load (bad password, non-PDF buffer), or it yields per-page text-item
lists, any one of which may itself fail to decode. -/
inductive PDFLoad where
  | fail : String → PDFLoad
  | ok : List (Except String (List TextItem)) → PDFLoad
deriving Repr

/-- Does a page decode fail? -/
def pageFails : Except String (List TextItem) → Bool
  | .error _ => true
  | .ok _ => false

/-- Does the decode of the document or of any page fail? -/
def docHasFailure : PDFLoad → Bool
  | .fail _ => true
  | .ok pages => pages.any pageFails

/-- The page loop of `parse`. `i` counts pages from 0 (the source counts
from 1; its `i === 1` test is `i = 0` here). A failing page aborts the
loop, returning the error and the state as mutated so far. -/
def runPages : ParserState → Nat → List (Except String (List TextItem)) → ParserState × Option String
  | st, _, [] => (st, none)
  | st, i, p :: ps =>
    match p with
    | .error e => (st, some e)
    | .ok items =>
      let st1 := if i = 0 then
          { st with columnPositions := computeColumnBoundaries (identifyColumnPositions items) }
        else st
      let st2 := { st1 with pageTexts := st1.pageTexts ++ [joinSpace (items.map (fun it : TextItem => it.str))] }
      let st3 := { st2 with numericEntries :=
        st2.numericEntries ++
          extractNumericFromItems st2.columnPositions st2.numericEntries.length items }
      runPages st3 (i + 1) ps

/-- `parse`. The try/catch wraps any decode error as
`Failed to parse PDF: ...`; the accumulators are reset only after the
document itself has loaded, exactly as in the source. Returns the state
of the instance after the call together with the returned value or the
thrown error. -/
def parse (st : ParserState) (doc : PDFLoad) : ParserState × Except String (List Transaction) :=
  match doc with
  | .fail e => (st, .error ("Failed to parse PDF: " ++ e))
  | .ok pages =>
    let st0 := { st with transactions := [], pageTexts := [], numericEntries := [] }
    match runPages st0 0 pages with
    | (st1, some e) => (st1, .error ("Failed to parse PDF: " ++ e))
    | (st1, none) =>
      let headers := extractHeaderEntriesFromPageTexts st1.pageTexts
      let merged := mergeEntries headers st1.numericEntries
      ({ st1 with transactions := merged }, .ok merged)

/-- The CSV header line. -/
def csvHeader : String :=
  "Date and Time,Description,Reference No,Debit,Credit,Balance"

/-- One CSV data line: six double-quoted comma-separated fields. -/
def csvLine (t : Transaction) : String :=
  "\"" ++ t.dateTime ++ "\",\"" ++ t.description ++ "\",\"" ++ t.referenceNo ++
  "\",\"" ++ t.debit ++ "\",\"" ++ t.credit ++ "\",\"" ++ t.balance ++ "\""

/-- `toCSV`: the sentinel for an empty list, otherwise the header line
plus one line per transaction, built by appending and finally trimmed. -/
def toCSV (st : ParserState) : String :=
  if st.transactions.length = 0 then "No transactions found"
  else jsTrimS (st.transactions.foldl (fun acc t => acc ++ csvLine t ++ "\n") (csvHeader ++ "\n"))

/-- `raw` contains no occurrence, starting after its first character and
lying entirely inside it, of three whitespace characters immediately
followed by thirteen digits. This is what the laziness of `(.+?)`
guarantees for the raw captured description. -/
def noInternalSep (raw : List Char) : Prop :=
  ∀ pre ws ds post, raw = pre ++ ws ++ ds ++ post → pre ≠ [] →
    ws.length = 3 → (∀ c ∈ ws, isJsWs c = true) → ds.length = 13 →
    ¬ (∀ c ∈ ds, c.isDigit = true)

/-- The final description string never contains three consecutive spaces
immediately followed by a thirteen-digit run. -/
def spacesRefFree (s : String) : Prop :=
  ∀ pre ds post, s.data = pre ++ [' ', ' ', ' '] ++ ds ++ post → ds.length = 13 →
    ¬ (∀ c ∈ ds, c.isDigit = true)

/-- Did `parse` throw, with the message produced by its catch block? -/
def parseErrorWrapped : Except String (List Transaction) → Bool
  | .error e => listStartsWith "Failed to parse PDF: ".data e.data
  | .ok _ => false

/-- The non-sentinel CSV shape: lines joined by single newlines. -/
def joinLines : List String → String
  | [] => ""
  | [s] => s
  | s :: rest => s ++ "\n" ++ joinLines rest

/-- One synthetic page: a header-pattern line whose lazy description
capture is forced to cross an internal 3-space run, plus a debit amount
fragment at x = 500. -/
def doc1items : List TextItem :=
  [ { str := "2024-01-15 10:30 AM   ab   cd   1234567890123", x := 0, y := 700, width := 400 },
    { str := "500.00", x := 500, y := 700, width := 40 } ]

/-- A one-page document built from `doc1items`. -/
def doc1 : PDFLoad := PDFLoad.ok [Except.ok doc1items]

/-- The transaction `parse` extracts from `doc1`. -/
def tx1 : Transaction :=
  { dateTime := "2024-01-15 10:30 AM", description := "ab   cd",
    referenceNo := "1234567890123", debit := "500.00", credit := "", balance := "" }

/-- The parser state after a successful `parse` of `doc1`. -/
def state1 : ParserState :=
  { transactions := [tx1],
    pageTexts := ["2024-01-15 10:30 AM   ab   cd   1234567890123 500.00"],
    columnPositions := computeColumnBoundaries defaultColumnPositions,
    numericEntries := [{ entryNo := 1, debit := "500.00", credit := "", balance := "" }] }

/-- A clustered row carrying the "STARTING BALANCE" marker together with
a valid date/time substring. -/
def row3 : List TextItem :=
  [ { str := "STARTING BALANCE", x := 10, y := 0, width := 50 },
    { str := "2024-01-15 10:30 AM", x := 300, y := 0, width := 50 } ]

/-! ## Reconstruction lemmas for the pattern matchers -/

theorem takeExactClass_eq (p : Char → Bool) :
    ∀ (n : Nat) (cs t r : List Char), takeExactClass p n cs = some (t, r) →
      cs = t ++ r ∧ t.length = n ∧ ∀ c ∈ t, p c = true := by
  intro n
  induction n with
  | zero =>
    intro cs t r h
    simp [takeExactClass] at h
    simp [h.1, h.2]
  | succ m ih =>
    intro cs t r h
    match cs with
    | [] => simp [takeExactClass] at h
    | c :: cs2 =>
      simp only [takeExactClass] at h
      by_cases hp : p c
      · simp only [hp, if_true] at h
        match h2 : takeExactClass p m cs2 with
        | none => rw [h2] at h; exact absurd h (by simp)
        | some (t2, r2) =>
          rw [h2] at h
          simp only [Option.some.injEq, Prod.mk.injEq] at h
          obtain ⟨ht, hr⟩ := h
          obtain ⟨he, hl, hall⟩ := ih cs2 t2 r2 h2
          subst ht hr he
          refine ⟨rfl, by simp [hl], ?_⟩
          intro d hd
          rcases List.mem_cons.mp hd with h | h
          · subst h; exact hp
          · exact hall d h
      · simp [hp] at h

theorem takeExactClass_of (p : Char → Bool) :
    ∀ (t r : List Char), (∀ c ∈ t, p c = true) →
      takeExactClass p t.length (t ++ r) = some (t, r) := by
  intro t
  induction t with
  | nil => intro r _; simp [takeExactClass]
  | cons c t2 ih =>
    intro r hall
    have hc : p c = true := hall c (List.mem_cons_self c t2)
    simp only [List.length_cons, List.cons_append, takeExactClass, hc, if_true, List.append_eq]
    rw [ih r (fun d hd => hall d (List.mem_cons_of_mem c hd))]

theorem takeLit_eq (a : Char) (cs t r : List Char) (h : takeLit a cs = some (t, r)) :
    cs = t ++ r ∧ t.length = 1 := by
  match cs with
  | [] => simp [takeLit] at h
  | c :: cs2 =>
    simp only [takeLit] at h
    by_cases hc : c = a
    · simp only [hc, if_true] at h
      simp only [Option.some.injEq, Prod.mk.injEq] at h
      simp [← h.1, ← h.2, hc]
    · simp [hc] at h

theorem takeWsPlus_eq (cs t r : List Char) (h : takeWsPlus cs = some (t, r)) :
    cs = t ++ r ∧ t ≠ [] := by
  simp only [takeWsPlus] at h
  by_cases he : (cs.takeWhile isJsWs).isEmpty
  · simp [he] at h
  · simp only [he] at h
    simp only [Bool.false_eq_true, if_false, Option.some.injEq, Prod.mk.injEq] at h
    refine ⟨?_, ?_⟩
    · rw [← h.1, ← h.2]; exact (List.takeWhile_append_dropWhile isJsWs cs).symm
    · rw [← h.1]; simpa [List.isEmpty_iff] using he

theorem takeHourColon_eq (cs t r : List Char) (h : takeHourColon cs = some (t, r)) :
    cs = t ++ r := by
  match cs with
  | [] => simp [takeHourColon] at h
  | [a] => simp [takeHourColon] at h
  | a :: b :: rest =>
    simp only [takeHourColon] at h
    by_cases ha : a.isDigit
    · simp only [ha, if_true] at h
      by_cases hb : b = ':'
      · simp only [hb, if_true, Option.some.injEq, Prod.mk.injEq] at h
        simp [← h.1, ← h.2, hb]
      · simp only [hb, if_false] at h
        by_cases hb2 : b.isDigit
        · simp only [hb2, if_true] at h
          match rest with
          | [] => simp at h
          | c :: r2 =>
            by_cases hc : c = ':'
            · simp only [hc, if_true, Option.some.injEq, Prod.mk.injEq] at h
              simp [← h.1, ← h.2, hc]
            · simp [hc] at h
        · simp [hb2] at h
    · simp [ha] at h

theorem takeAmPm_eq (cs t r : List Char) (h : takeAmPm cs = some (t, r)) :
    cs = t ++ r := by
  match cs with
  | [] => simp [takeAmPm] at h
  | [a] => simp [takeAmPm] at h
  | a :: b :: rest =>
    simp only [takeAmPm] at h
    by_cases hab : (a = 'A' || a = 'P') && b = 'M'
    · simp only [hab, if_true, Option.some.injEq, Prod.mk.injEq] at h
      simp [← h.1, ← h.2]
    · simp [hab] at h

theorem matchDateTime_eq (cs m r : List Char) (h : matchDateTime cs = some (m, r)) :
    cs = m ++ r ∧ m ≠ [] := by
  simp only [matchDateTime, bind, Option.bind_eq_some, pure, Option.some.injEq,
    Prod.mk.injEq] at h
  obtain ⟨⟨d1, r1⟩, h1, ⟨e1, r2⟩, h2, ⟨d2, r3⟩, h3, ⟨e2, r4⟩, h4, ⟨d3, r5⟩, h5,
    ⟨w1, r6⟩, h6, ⟨hc, r7⟩, h7, ⟨d4, r8⟩, h8, ⟨w2, r9⟩, h9, ⟨ap, r10⟩, h10, hfin⟩ := h
  obtain ⟨hcs, hl1, _⟩ := takeExactClass_eq Char.isDigit 4 cs d1 r1 h1
  obtain ⟨hr1, _⟩ := takeLit_eq '-' r1 e1 r2 h2
  obtain ⟨hr2, _, _⟩ := takeExactClass_eq Char.isDigit 2 r2 d2 r3 h3
  obtain ⟨hr3, _⟩ := takeLit_eq '-' r3 e2 r4 h4
  obtain ⟨hr4, _, _⟩ := takeExactClass_eq Char.isDigit 2 r4 d3 r5 h5
  obtain ⟨hr5, _⟩ := takeWsPlus_eq r5 w1 r6 h6
  have hr6 := takeHourColon_eq r6 hc r7 h7
  obtain ⟨hr7, _, _⟩ := takeExactClass_eq Char.isDigit 2 r7 d4 r8 h8
  obtain ⟨hr8, _⟩ := takeWsPlus_eq r8 w2 r9 h9
  have hr9 := takeAmPm_eq r9 ap r10 h10
  have hm : m = d1 ++ e1 ++ d2 ++ e2 ++ d3 ++ w1 ++ hc ++ d4 ++ w2 ++ ap := hfin.1.symm
  have hrr : r = r10 := hfin.2.symm
  constructor
  · subst hrr hm
    rw [hcs, hr1, hr2, hr3, hr4, hr5, hr6, hr7, hr8, hr9]
    simp [List.append_assoc]
  · subst hm
    intro hemp
    have hlen := congrArg List.length hemp
    simp only [List.length_append, List.length_nil] at hlen
    omega

theorem checkSep13_eq (cs sep ds r : List Char) (h : checkSep13 cs = some (sep, ds, r)) :
    cs = sep ++ ds ++ r := by
  unfold checkSep13 at h
  split at h
  · exact absurd h (by simp)
  next sep1 r1 h1 =>
    split at h
    · exact absurd h (by simp)
    next ds1 r2 h2 =>
      simp only [Option.some.injEq, Prod.mk.injEq] at h
      obtain ⟨hs, hd, hr⟩ := h
      obtain ⟨e1, _, _⟩ := takeExactClass_eq isJsWs 3 cs sep1 r1 h1
      obtain ⟨e2, _, _⟩ := takeExactClass_eq Char.isDigit 13 r1 ds1 r2 h2
      rw [← hs, ← hd, ← hr, e1, e2, List.append_assoc]

theorem checkSep13_of (sep ds r : List Char) (h3 : sep.length = 3)
    (hws : ∀ c ∈ sep, isJsWs c = true) (h13 : ds.length = 13)
    (hds : ∀ c ∈ ds, c.isDigit = true) :
    checkSep13 (sep ++ (ds ++ r)) = some (sep, ds, r) := by
  have e1 : takeExactClass isJsWs 3 (sep ++ (ds ++ r)) = some (sep, ds ++ r) := by
    rw [← h3]; exact takeExactClass_of isJsWs sep (ds ++ r) hws
  have e2 : takeExactClass Char.isDigit 13 (ds ++ r) = some (ds, r) := by
    rw [← h13]; exact takeExactClass_of Char.isDigit ds r hds
  simp only [checkSep13, e1, e2]

theorem lazyDescGo_spec :
    ∀ (cs accRev desc sep ref rest : List Char),
      lazyDescGo accRev cs = some (desc, sep, ref, rest) →
      ∃ tail, desc = accRev.reverse ++ tail ∧ cs = tail ++ (sep ++ ref ++ rest) ∧
        ∀ i < tail.length, checkSep13 (tail.drop i ++ (sep ++ ref ++ rest)) = none := by
  intro cs
  induction cs with
  | nil =>
    intro accRev desc sep ref rest h
    cases h1 : checkSep13 [] with
    | some v =>
      obtain ⟨s1, d1, r1⟩ := v
      simp only [lazyDescGo, h1, lazyStep, Option.some.injEq, Prod.mk.injEq] at h
      obtain ⟨hd, hs, hr, hre⟩ := h
      refine ⟨[], by simp [hd], ?_, by simp⟩
      rw [List.nil_append, ← hs, ← hr, ← hre]
      exact checkSep13_eq [] s1 d1 r1 h1
    | none => simp [lazyDescGo, h1, lazyStep] at h
  | cons c cs2 ih =>
    intro accRev desc sep ref rest h
    cases h1 : checkSep13 (c :: cs2) with
    | some v =>
      obtain ⟨s1, d1, r1⟩ := v
      simp only [lazyDescGo, h1, lazyStep, Option.some.injEq, Prod.mk.injEq] at h
      obtain ⟨hd, hs, hr, hre⟩ := h
      refine ⟨[], by simp [hd], ?_, by simp⟩
      rw [List.nil_append, ← hs, ← hr, ← hre]
      exact checkSep13_eq (c :: cs2) s1 d1 r1 h1
    | none =>
      simp only [lazyDescGo, h1, lazyStep] at h
      by_cases ht : isLineTerm c
      · simp [ht] at h
      · simp only [ht, Bool.false_eq_true, if_false] at h
        obtain ⟨tail2, hdesc, hcs2, hnone⟩ := ih (c :: accRev) desc sep ref rest h
        refine ⟨c :: tail2, ?_, ?_, ?_⟩
        · simpa [List.append_assoc] using hdesc
        · simp [hcs2]
        · intro i hi
          match i with
          | 0 =>
            rw [List.drop_zero, List.cons_append, ← hcs2]
            exact h1
          | j + 1 =>
            simp only [List.length_cons] at hi
            simpa using hnone j (by omega)

theorem lazyDesc_eq (cs desc sep ref rest : List Char)
    (h : lazyDesc cs = some (desc, sep, ref, rest)) :
    cs = desc ++ (sep ++ ref ++ rest) ∧ desc ≠ [] ∧ noInternalSep desc := by
  match cs with
  | [] => simp [lazyDesc] at h
  | c :: cs2 =>
    simp only [lazyDesc] at h
    by_cases ht : isLineTerm c
    · simp [ht] at h
    · simp only [ht, Bool.false_eq_true, if_false] at h
      obtain ⟨tail, hdesc, hcs2, hnone⟩ := lazyDescGo_spec cs2 [c] desc sep ref rest h
      simp only [List.reverse_cons, List.reverse_nil, List.nil_append,
        List.singleton_append] at hdesc
      constructor
      · rw [hdesc, hcs2]; simp
      constructor
      · rw [hdesc]; simp
      · intro pre ws ds post hsplit hpre h3 hws h13 hdig
        match pre, hpre with
        | p0 :: pre2, _ =>
          rw [hdesc] at hsplit
          have htail : tail = pre2 ++ ws ++ ds ++ post := by
            have := hsplit
            simp only [List.cons_append, List.cons.injEq] at this
            exact this.2
          have hlen : pre2.length < tail.length := by
            have := congrArg List.length htail
            simp only [List.length_append, h3, h13] at this
            omega
          have hdrop : tail.drop pre2.length = ws ++ ds ++ post := by
            rw [htail]
            have : pre2 ++ ws ++ ds ++ post = pre2 ++ (ws ++ ds ++ post) := by
              simp [List.append_assoc]
            rw [this, List.drop_left]
          have hchk := hnone pre2.length hlen
          rw [hdrop] at hchk
          have hok : checkSep13 (ws ++ (ds ++ (post ++ (sep ++ ref ++ rest)))) =
              some (ws, ds, post ++ (sep ++ ref ++ rest)) :=
            checkSep13_of ws ds (post ++ (sep ++ ref ++ rest)) h3 hws h13 hdig
          rw [show ws ++ ds ++ post ++ (sep ++ ref ++ rest) =
                ws ++ (ds ++ (post ++ (sep ++ ref ++ rest))) by simp [List.append_assoc]] at hchk
          rw [hok] at hchk
          exact absurd hchk (by simp)

theorem tryMatchAt_eq (cs dt desc ref rest : List Char)
    (h : tryMatchAt cs = some (dt, desc, ref, rest)) :
    rest.length < cs.length ∧ noInternalSep desc := by
  unfold tryMatchAt at h
  split at h
  · exact absurd h (by simp)
  next dt1 r1 h1 =>
    split at h
    · exact absurd h (by simp)
    next sep1 r2 h2 =>
      split at h
      · exact absurd h (by simp)
      next desc1 sepx ref1 rest1 h3 =>
        simp only [Option.some.injEq, Prod.mk.injEq] at h
        obtain ⟨hdt, hdesc, href, hrest⟩ := h
        obtain ⟨e1, hne⟩ := matchDateTime_eq cs dt1 r1 h1
        obtain ⟨e2, hl2, _⟩ := takeExactClass_eq isJsWs 3 r1 sep1 r2 h2
        obtain ⟨e3, hne3, hnis⟩ := lazyDesc_eq r2 desc1 sepx ref1 rest1 h3
        constructor
        · rw [← hrest]
          have hlen := congrArg List.length e1
          have hlen2 := congrArg List.length e2
          have hlen3 := congrArg List.length e3
          simp only [List.length_append] at hlen hlen2 hlen3
          have hdtpos : 0 < dt1.length := List.length_pos.mpr hne
          have hdpos : 0 < desc1.length := List.length_pos.mpr hne3
          omega
        · rw [← hdesc]; exact hnis

theorem dropWhile_head_not (p : Char → Bool) :
    ∀ (l : List Char) (c : Char), (l.dropWhile p).head? = some c → p c = false := by
  intro l
  induction l with
  | nil => intro c h; simp at h
  | cons a l2 ih =>
    intro c h
    by_cases hp : p a
    · rw [List.dropWhile_cons, if_pos hp] at h
      exact ih c h
    · rw [List.dropWhile_cons, if_neg hp] at h
      simp only [List.head?_cons, Option.some.injEq] at h
      rw [← h]
      exact Bool.of_not_eq_true hp

theorem dropTrailingWs_decomp (l : List Char) :
    ∃ t, l = dropTrailingWs l ++ t := by
  refine ⟨(l.reverse.takeWhile isJsWs).reverse, ?_⟩
  unfold dropTrailingWs
  have := congrArg List.reverse (List.takeWhile_append_dropWhile isJsWs l.reverse)
  rw [List.reverse_append, List.reverse_reverse] at this
  rw [this]

theorem jsTrim_decomp (l : List Char) :
    ∃ a b, l = a ++ jsTrim l ++ b := by
  refine ⟨l.takeWhile isJsWs, ?_⟩
  obtain ⟨t, ht⟩ := dropTrailingWs_decomp (l.dropWhile isJsWs)
  refine ⟨t, ?_⟩
  unfold jsTrim
  rw [List.append_assoc, ← ht, List.takeWhile_append_dropWhile]

theorem jsTrim_head_not_ws (l : List Char) (c : Char)
    (h : (jsTrim l).head? = some c) : isJsWs c = false := by
  obtain ⟨t, ht⟩ := dropTrailingWs_decomp (l.dropWhile isJsWs)
  have hm : (l.dropWhile isJsWs).head? = some c := by
    unfold jsTrim at h
    rw [ht, List.head?_append, h]
    rfl
  exact dropWhile_head_not isJsWs l c hm

theorem trim_spacesRefFree (raw : List Char) (h : noInternalSep raw) :
    spacesRefFree (jsTrimS (String.mk raw)) := by
  intro pre ds post heq h13 hdig
  have hdata : (jsTrimS (String.mk raw)).data = jsTrim raw := rfl
  rw [hdata] at heq
  match pre with
  | [] =>
    have hhead : (jsTrim raw).head? = some ' ' := by
      rw [heq]; rfl
    have := jsTrim_head_not_ws raw ' ' hhead
    simp [isJsWs] at this
  | p0 :: pre2 =>
    obtain ⟨a, b, hab⟩ := jsTrim_decomp raw
    rw [heq] at hab
    have hraw : raw = (a ++ (p0 :: pre2)) ++ [' ', ' ', ' '] ++ ds ++ (post ++ b) := by
      rw [hab]; simp [List.append_assoc]
    exact h (a ++ (p0 :: pre2)) [' ', ' ', ' '] ds (post ++ b) hraw (by simp)
      (by simp) (by intro c hc; simp at hc; subst hc; rfl) h13 hdig

theorem scanHeaders_desc :
    ∀ (fuel n : Nat) (cs : List Char), ∀ e ∈ scanHeaders fuel n cs,
      spacesRefFree e.description := by
  intro fuel
  induction fuel with
  | zero => intro n cs e he; simp [scanHeaders] at he
  | succ f ih =>
    intro n cs e he
    cases h1 : tryMatchAt cs with
    | some v =>
      obtain ⟨dt, desc, ref, rest⟩ := v
      simp only [scanHeaders, h1] at he
      rcases List.mem_cons.mp he with he | he
      · subst he
        exact trim_spacesRefFree desc (tryMatchAt_eq cs dt desc ref rest h1).2
      · exact ih (n + 1) rest e he
    | none =>
      cases cs with
      | nil => simp [scanHeaders, h1] at he
      | cons c cs2 =>
        simp only [scanHeaders, h1] at he
        exact ih n cs2 e he

theorem scanHeaders_ordinals :
    ∀ (fuel n : Nat) (cs : List Char),
      (scanHeaders fuel n cs).map (fun e => e.entryNo) =
        List.range' (n + 1) (scanHeaders fuel n cs).length := by
  intro fuel
  induction fuel with
  | zero => intro n cs; simp [scanHeaders]
  | succ f ih =>
    intro n cs
    cases h1 : tryMatchAt cs with
    | some v =>
      obtain ⟨dt, desc, ref, rest⟩ := v
      simp only [scanHeaders, h1, List.map_cons, List.length_cons]
      rw [List.range'_succ]
      rw [ih (n + 1) rest]
    | none =>
      cases cs with
      | nil => simp [scanHeaders, h1]
      | cons c cs2 =>
        simp only [scanHeaders, h1]
        exact ih n cs2

theorem ratSub_eq (a b : ℚ) : ratSub a b = a - b := by
  have ha : ((a.den : ℚ)) ≠ 0 := by exact_mod_cast a.den_nz
  have hb : ((b.den : ℚ)) ≠ 0 := by exact_mod_cast b.den_nz
  have hae : (a.num : ℚ) = a * a.den := (div_eq_iff ha).mp (Rat.num_div_den a)
  have hbe : (b.num : ℚ) = b * b.den := (div_eq_iff hb).mp (Rat.num_div_den b)
  unfold ratSub
  rw [Rat.mkRat_eq_div]
  push_cast
  rw [div_eq_iff (by positivity), hae, hbe]
  ring

theorem ratAbs_eq (q : ℚ) : ratAbs q = |q| := by
  unfold ratAbs
  rcases lt_or_le q 0 with h | h
  · rw [if_pos h, abs_of_neg h]
  · rw [if_neg (not_lt.mpr h), abs_of_nonneg h]

theorem ratMidStep_eq (a b : ℚ) : ratMidStep a b = a + (b - a) / 2 := by
  have ha : ((a.den : ℚ)) ≠ 0 := by exact_mod_cast a.den_nz
  have hb : ((b.den : ℚ)) ≠ 0 := by exact_mod_cast b.den_nz
  have hae : (a.num : ℚ) = a * a.den := (div_eq_iff ha).mp (Rat.num_div_den a)
  have hbe : (b.num : ℚ) = b * b.den := (div_eq_iff hb).mp (Rat.num_div_den b)
  unfold ratMidStep
  rw [Rat.mkRat_eq_div]
  push_cast
  rw [div_eq_iff (by positivity), hae, hbe]
  ring

/-! ## Column model lemmas -/

theorem setBounds_length (cols : List ColumnInfo) :
    (setBounds cols).length = cols.length := by
  simp [setBounds]

theorem setBounds_getElem (cols : List ColumnInfo) (i : Nat) (hi : i < cols.length)
    (h : i < (setBounds cols).length) :
    (setBounds cols).get ⟨i, h⟩ =
      { cols.get ⟨i, hi⟩ with
        minX := some (if i = 0 then 0 else (boundariesOf cols).getD (i - 1) 0),
        maxX := if i = cols.length - 1 then XBound.posInf
                else XBound.fin ((boundariesOf cols).getD i 0) } := by
  simp only [List.get_eq_getElem, setBounds, List.getElem_map, List.getElem_range]
  rw [List.getD_eq_getElem cols _ hi]

theorem boundariesOf_getD (cols : List ColumnInfo) (i : Nat) (hi : i + 1 < cols.length) :
    (boundariesOf cols).getD i 0 =
      ratMidStep (cols.get ⟨i, Nat.lt_of_succ_lt hi⟩).x (cols.get ⟨i + 1, hi⟩).x := by
  have hlen : (boundariesOf cols).length = min cols.length cols.tail.length := by
    simp [boundariesOf]
  have htl : cols.tail.length = cols.length - 1 := by simp
  have hib : i < (boundariesOf cols).length := by omega
  rw [List.getD_eq_getElem _ _ hib]
  simp only [boundariesOf, List.getElem_zipWith, List.get_eq_getElem]
  rw [List.getElem_tail]

theorem sortX_pairwise (cols : List ColumnInfo) :
    (cols.insertionSort (fun a b => a.x ≤ b.x)).Pairwise (fun a b => a.x ≤ b.x) := by
  haveI : IsTotal ColumnInfo (fun a b : ColumnInfo => a.x ≤ b.x) :=
    ⟨fun a b => le_total a.x b.x⟩
  haveI : IsTrans ColumnInfo (fun a b : ColumnInfo => a.x ≤ b.x) :=
    ⟨fun a b c => le_trans⟩
  exact List.sorted_insertionSort _ cols

/-- C2 (claim theorem): for every Column Model built by
`computeColumnBoundaries` — from detected header fragments or from the
fallback set, with any number of columns — the columns are in ascending
`x` order and the assigned intervals partition the axis: the first
`minX` is 0, the last `maxX` is infinite, and each interior boundary is
shared between neighbours and equals the midpoint of their centers. -/
theorem claim2_column_partition (cols : List ColumnInfo) :
    (∀ h0 : 0 < (computeColumnBoundaries cols).length,
      ((computeColumnBoundaries cols).get ⟨0, h0⟩).minX = some 0) ∧
    (∀ i (hi : i < (computeColumnBoundaries cols).length),
      i + 1 = (computeColumnBoundaries cols).length →
      ((computeColumnBoundaries cols).get ⟨i, hi⟩).maxX = XBound.posInf) ∧
    (∀ i (hi : i + 1 < (computeColumnBoundaries cols).length),
      ((computeColumnBoundaries cols).get ⟨i, Nat.lt_of_succ_lt hi⟩).maxX =
        XBound.fin ((((computeColumnBoundaries cols).get ⟨i, Nat.lt_of_succ_lt hi⟩).x +
          ((computeColumnBoundaries cols).get ⟨i + 1, hi⟩).x) / 2) ∧
      ((computeColumnBoundaries cols).get ⟨i + 1, hi⟩).minX =
        some ((((computeColumnBoundaries cols).get ⟨i, Nat.lt_of_succ_lt hi⟩).x +
          ((computeColumnBoundaries cols).get ⟨i + 1, hi⟩).x) / 2)) ∧
    (∀ i (hi : i + 1 < (computeColumnBoundaries cols).length),
      ((computeColumnBoundaries cols).get ⟨i, Nat.lt_of_succ_lt hi⟩).x ≤
        ((computeColumnBoundaries cols).get ⟨i + 1, hi⟩).x) := by
  have hcc : computeColumnBoundaries cols =
      setBounds (cols.insertionSort (fun a b => a.x ≤ b.x)) := rfl
  set s := cols.insertionSort (fun a b => a.x ≤ b.x) with hsdef
  have hlen : (computeColumnBoundaries cols).length = s.length := by
    rw [hcc]; exact setBounds_length s
  have hget : ∀ (i : Nat) (hi : i < s.length) (h : i < (computeColumnBoundaries cols).length),
      (computeColumnBoundaries cols).get ⟨i, h⟩ =
        { s.get ⟨i, hi⟩ with
          minX := some (if i = 0 then 0 else (boundariesOf s).getD (i - 1) 0),
          maxX := if i = s.length - 1 then XBound.posInf
                  else XBound.fin ((boundariesOf s).getD i 0) } := by
    intro i hi h
    have h2 : i < (setBounds s).length := by rw [setBounds_length]; exact hi
    calc (computeColumnBoundaries cols).get ⟨i, h⟩
        = (setBounds s).get ⟨i, h2⟩ := by simp only [List.get_eq_getElem]; congr 1
      _ = _ := setBounds_getElem s i hi h2
  refine ⟨?_, ?_, ?_, ?_⟩
  · intro h0
    have hi : 0 < s.length := by omega
    rw [hget 0 hi h0]
    simp
  · intro i hi hlast
    have his : i < s.length := by omega
    rw [hget i his hi]
    have : i = s.length - 1 := by omega
    simp [this]
  · intro i hi
    have his : i < s.length := by omega
    have his1 : i + 1 < s.length := by omega
    have hine : ¬ (i = s.length - 1) := by omega
    have hbnd := boundariesOf_getD s i his1
    constructor
    · rw [hget i his (Nat.lt_of_succ_lt hi), hget (i + 1) his1 hi]
      simp only [hine, if_false]
      rw [hbnd, ratMidStep_eq]
      congr 1
      ring
    · rw [hget (i + 1) his1 hi, hget i his (Nat.lt_of_succ_lt hi)]
      have : ¬ (i + 1 = 0) := by omega
      simp only [this, if_false, Nat.add_sub_cancel]
      rw [hbnd, ratMidStep_eq]
      congr 1
      ring
  · intro i hi
    have his : i < s.length := by omega
    have his1 : i + 1 < s.length := by omega
    rw [hget i his (Nat.lt_of_succ_lt hi), hget (i + 1) his1 hi]
    have hp := sortX_pairwise cols
    rw [List.pairwise_iff_getElem] at hp
    have := hp i (i + 1) his his1 (by omega)
    simpa [List.get_eq_getElem] using this

/-! ## Header detection, ordinal and pipeline lemmas -/

theorem find?_first (p : TextItem → Bool) :
    ∀ (items : List TextItem) (i : Nat) (hi : i < items.length),
      p (items.get ⟨i, hi⟩) = true →
      (∀ j (hj : j < items.length), j < i → p (items.get ⟨j, hj⟩) = false) →
      items.find? p = some (items.get ⟨i, hi⟩) := by
  intro items
  induction items with
  | nil => intro i hi; simp at hi
  | cons a l ih =>
    intro i hi hp hprev
    match i with
    | 0 =>
      simp only [List.get_eq_getElem, List.getElem_cons_zero] at hp
      simp [List.find?, hp]
    | k + 1 =>
      have ha : p a = false := by
        have := hprev 0 (by simp) (by omega)
        simpa using this
      have hk : k < l.length := by simpa using hi
      have hpk : p (l.get ⟨k, hk⟩) = true := by
        simpa using hp
      have hprevk : ∀ j (hj : j < l.length), j < k → p (l.get ⟨j, hj⟩) = false := by
        intro j hj hjk
        have := hprev (j + 1) (by simpa using Nat.succ_lt_succ hj) (by omega)
        simpa using this
      rw [List.find?]
      rw [ha]
      simp only [List.get_eq_getElem, List.getElem_cons_succ]
      exact ih k hk hpk hprevk

theorem emitNumeric_ordinals (cols : List ColumnInfo) :
    ∀ (rows : List (List TextItem)) (cnt : Nat),
      (emitNumeric cols cnt rows).map (fun e => e.entryNo) =
        List.range' (cnt + 1) (emitNumeric cols cnt rows).length := by
  intro rows
  induction rows with
  | nil => intro cnt; simp [emitNumeric]
  | cons line rest ih =>
    intro cnt
    cases h : processRow cols line with
    | some v =>
      obtain ⟨d, c, b⟩ := v
      simp only [emitNumeric, h, List.map_cons, List.length_cons]
      rw [List.range'_succ]
      rw [ih (cnt + 1)]
    | none =>
      simp only [emitNumeric, h]
      exact ih cnt

theorem extractNumericFromItems_ordinals (cols : List ColumnInfo) (k : Nat)
    (items : List TextItem) :
    (extractNumericFromItems cols k items).map (fun e => e.entryNo) =
      List.range' (k + 1) (extractNumericFromItems cols k items).length :=
  emitNumeric_ordinals cols (clustersOf items) k

theorem runPages_transactions :
    ∀ (ps : List (Except String (List TextItem))) (st : ParserState) (i : Nat),
      (runPages st i ps).1.transactions = st.transactions := by
  intro ps
  induction ps with
  | nil => intro st i; rfl
  | cons p ps2 ih =>
    intro st i
    cases p with
    | error e => rfl
    | ok items =>
      simp only [runPages]
      rw [ih]
      by_cases h0 : i = 0 <;> simp [h0]

theorem runPages_fail :
    ∀ (ps : List (Except String (List TextItem))) (st : ParserState) (i : Nat),
      ps.any pageFails = true → ((runPages st i ps).2).isSome = true := by
  intro ps
  induction ps with
  | nil => intro st i h; simp at h
  | cons p ps2 ih =>
    intro st i h
    cases p with
    | error e => rfl
    | ok items =>
      simp only [runPages]
      apply ih
      simpa [pageFails] using h

theorem runPages_ordinals :
    ∀ (ps : List (Except String (List TextItem))) (st : ParserState) (i : Nat),
      st.numericEntries.map (fun e => e.entryNo) = List.range' 1 st.numericEntries.length →
      (runPages st i ps).1.numericEntries.map (fun e => e.entryNo) =
        List.range' 1 (runPages st i ps).1.numericEntries.length := by
  intro ps
  induction ps with
  | nil => intro st i h; exact h
  | cons p ps2 ih =>
    intro st i h
    cases p with
    | error e => exact h
    | ok items =>
      simp only [runPages]
      apply ih
      set st1 := if i = 0 then
          { st with columnPositions := computeColumnBoundaries (identifyColumnPositions items) }
        else st with hst1
      have hnum1 : st1.numericEntries = st.numericEntries := by
        rw [hst1]; by_cases h0 : i = 0 <;> simp [h0]
      simp only [List.map_append, List.length_append, hnum1]
      rw [h, extractNumericFromItems_ordinals]
      have := List.range'_append 1 st.numericEntries.length
        (extractNumericFromItems st1.columnPositions st.numericEntries.length items).length 1
      simp only [one_mul, Nat.add_comm 1 st.numericEntries.length] at this
      rw [this]
      congr 1
      omega

theorem listStartsWith_append (l m : List Char) : listStartsWith l (l ++ m) = true := by
  induction l with
  | nil => rfl
  | cons c l2 ih => simp [listStartsWith, ih]

theorem mem_zipWith_exists {α β γ : Type} (f : α → β → γ) :
    ∀ (as : List α) (bs : List β) (c : γ),
      c ∈ List.zipWith f as bs → ∃ a b, a ∈ as ∧ b ∈ bs ∧ c = f a b := by
  intro as
  induction as with
  | nil => intro bs c hc; simp at hc
  | cons a as2 ih =>
    intro bs c hc
    cases bs with
    | nil => simp at hc
    | cons b bs2 =>
      simp only [List.zipWith_cons_cons] at hc
      rcases List.mem_cons.mp hc with h | h
      · exact ⟨a, b, List.mem_cons_self a as2, List.mem_cons_self b bs2, h⟩
      · obtain ⟨a2, b2, ha, hb, he⟩ := ih bs2 c h
        exact ⟨a2, b2, List.mem_cons_of_mem a ha, List.mem_cons_of_mem b hb, he⟩

theorem parse_ok_spec (st : ParserState) (doc : PDFLoad) (st2 : ParserState)
    (ts : List Transaction) (h : parse st doc = (st2, Except.ok ts)) :
    ts = mergeEntries (extractHeaderEntriesFromPageTexts st2.pageTexts) st2.numericEntries ∧
    st2.transactions = ts := by
  cases doc with
  | fail e => simp [parse, Prod.ext_iff] at h
  | ok pages =>
    simp only [parse] at h
    rcases hrp : runPages
        { st with transactions := [], pageTexts := [], numericEntries := [] } 0 pages with
      ⟨st1, opt⟩
    rw [hrp] at h
    cases opt with
    | some e => simp [Prod.ext_iff] at h
    | none =>
      simp only [Prod.ext_iff, Except.ok.injEq] at h
      obtain ⟨h1, h2⟩ := h
      have hpt : st2.pageTexts = st1.pageTexts := by rw [← h1]
      have hne : st2.numericEntries = st1.numericEntries := by rw [← h1]
      have htr : st2.transactions =
          mergeEntries (extractHeaderEntriesFromPageTexts st1.pageTexts) st1.numericEntries := by
        rw [← h1]
      constructor
      · rw [hpt, hne, ← h2]
      · rw [htr, ← h2]

/-- C9 (claim theorem): if the document load or any page decode fails,
`parse` fails with a single wrapped error (the catch block message), no
transaction list is returned, and the stored transactions are either the
empty list (reset before the failing page loop) or the previous
invocation's untouched list — never partial results of this one. -/
theorem claim9_decode_failure (st : ParserState) (doc : PDFLoad) (h : docHasFailure doc = true) :
    parseErrorWrapped (parse st doc).2 = true ∧
    ((parse st doc).1.transactions = [] ∨ (parse st doc).1.transactions = st.transactions) := by
  cases doc with
  | fail e =>
    constructor
    · simp only [parse, parseErrorWrapped, String.data_append]
      exact listStartsWith_append _ _
    · right; rfl
  | ok pages =>
    have hany : pages.any pageFails = true := by simpa [docHasFailure] using h
    have hsome := runPages_fail pages
      { st with transactions := [], pageTexts := [], numericEntries := [] } 0 hany
    rcases hrp : runPages
        { st with transactions := [], pageTexts := [], numericEntries := [] } 0 pages with
      ⟨st1, opt⟩
    rw [hrp] at hsome
    cases opt with
    | none => simp at hsome
    | some e =>
      have hp : parse st (.ok pages) = (st1, .error ("Failed to parse PDF: " ++ e)) := by
        simp only [parse, hrp]
      rw [hp]
      constructor
      · simp only [parseErrorWrapped, String.data_append]
        exact listStartsWith_append _ _
      · left
        have := runPages_transactions pages
          { st with transactions := [], pageTexts := [], numericEntries := [] } 0
        rw [hrp] at this
        simpa using this

theorem parse_ok_ordinals (st : ParserState) (doc : PDFLoad) (st2 : ParserState)
    (ts : List Transaction) (h : parse st doc = (st2, Except.ok ts)) :
    st2.numericEntries.map (fun e => e.entryNo) = List.range' 1 st2.numericEntries.length := by
  cases doc with
  | fail e => simp [parse, Prod.ext_iff] at h
  | ok pages =>
    simp only [parse] at h
    rcases hrp : runPages
        { st with transactions := [], pageTexts := [], numericEntries := [] } 0 pages with
      ⟨st1, opt⟩
    rw [hrp] at h
    cases opt with
    | some e => simp [Prod.ext_iff] at h
    | none =>
      simp only [Prod.ext_iff, Except.ok.injEq] at h
      obtain ⟨h1, h2⟩ := h
      have hord := runPages_ordinals pages
        { st with transactions := [], pageTexts := [], numericEntries := [] } 0 (by simp)
      rw [hrp] at hord
      have hne : st2.numericEntries = st1.numericEntries := by rw [← h1]
      rw [hne]
      simpa using hord

theorem csvFold_eq :
    ∀ (ts : List Transaction) (init : String), ts ≠ [] →
      ts.foldl (fun acc t => acc ++ csvLine t ++ "\n") init =
        init ++ joinLines (ts.map csvLine) ++ "\n" := by
  intro ts
  induction ts with
  | nil => intro init h; exact absurd rfl h
  | cons t ts2 ih =>
    intro init _
    cases ts2 with
    | nil => simp [joinLines, List.foldl, String.append_assoc]
    | cons t2 rest =>
      have h2 : (t2 :: rest) ≠ [] := by simp
      rw [List.foldl_cons, ih (init ++ csvLine t ++ "\n") h2]
      simp only [List.map_cons, joinLines]
      simp [String.append_assoc]

theorem jsTrim_strip_newline (l : List Char) (c1 c2 : Char)
    (hh : l.head? = some c1) (hw1 : isJsWs c1 = false)
    (hl : l.getLast? = some c2) (hw2 : isJsWs c2 = false) :
    jsTrim (l ++ ['\n']) = l := by
  unfold jsTrim
  have hdrop : (l ++ ['\n']).dropWhile isJsWs = l ++ ['\n'] := by
    match l, hh with
    | a :: l2, hh =>
      simp only [List.head?_cons, Option.some.injEq] at hh
      subst hh
      rw [List.cons_append, List.dropWhile_cons, hw1]
      simp
  rw [hdrop]
  unfold dropTrailingWs
  rw [List.reverse_append]
  have hrev : (['\n'] : List Char).reverse = ['\n'] := rfl
  rw [hrev]
  have hstep : (['\n'] ++ l.reverse).dropWhile isJsWs = l.reverse.dropWhile isJsWs := by
    simp [List.dropWhile_cons, isJsWs]
  rw [hstep]
  have hrevhead : l.reverse.head? = some c2 := by rw [List.head?_reverse]; exact hl
  have hdrop2 : l.reverse.dropWhile isJsWs = l.reverse := by
    match hr : l.reverse, hrevhead with
    | a :: r2, hrevhead =>
      simp only [List.head?_cons, Option.some.injEq] at hrevhead
      subst hrevhead
      rw [List.dropWhile_cons, hw2]
      simp
  rw [hdrop2, List.reverse_reverse]

theorem csvLine_last (t : Transaction) : (csvLine t).data.getLast? = some '"' := by
  unfold csvLine
  rw [String.data_append, List.getLast?_append]
  rfl

theorem joinLines_last :
    ∀ (ts : List Transaction), ts ≠ [] →
      (joinLines (ts.map csvLine)).data.getLast? = some '"' := by
  intro ts
  induction ts with
  | nil => intro h; exact absurd rfl h
  | cons t ts2 ih =>
    intro _
    cases ts2 with
    | nil => simpa [joinLines] using csvLine_last t
    | cons t2 rest =>
      simp only [List.map_cons, joinLines]
      rw [String.data_append, List.getLast?_append]
      have := ih (by simp)
      simp only [List.map_cons] at this
      rw [show (joinLines (csvLine t2 :: List.map csvLine rest)).data.getLast? = some '"'
          from this]
      rfl

/-- C8 (claim theorem): the empty transaction list serializes to exactly
the sentinel string, and a nonempty list to the six-name header line
followed by one data line per transaction, newline separated. -/
theorem claim8_csv_serialization (st : ParserState) :
    (st.transactions = [] → toCSV st = "No transactions found") ∧
    (st.transactions ≠ [] →
      toCSV st = csvHeader ++ "\n" ++ joinLines (st.transactions.map csvLine)) := by
  constructor
  · intro h
    simp [toCSV, h]
  · intro h
    have hlen : ¬ (st.transactions.length = 0) := by
      simpa [List.length_eq_zero] using h
    unfold toCSV
    rw [if_neg hlen]
    rw [csvFold_eq st.transactions (csvHeader ++ "\n") h]
    have hhead : (csvHeader ++ "\n" ++ joinLines (st.transactions.map csvLine)).data.head? =
        some 'D' := by
      rw [String.append_assoc, String.data_append, List.head?_append]
      rfl
    have hlast : (csvHeader ++ "\n" ++ joinLines (st.transactions.map csvLine)).data.getLast? =
        some '"' := by
      rw [String.data_append, List.getLast?_append]
      rw [joinLines_last st.transactions h]
      rfl
    apply String.ext
    have hdata : (jsTrimS (csvHeader ++ "\n" ++ joinLines (st.transactions.map csvLine) ++ "\n")).data =
        jsTrim ((csvHeader ++ "\n" ++ joinLines (st.transactions.map csvLine)).data ++ ['\n']) := by
      simp [jsTrimS, String.data_append]
    rw [hdata]
    exact jsTrim_strip_newline _ 'D' '"' hhead (by decide) hlast (by decide)

/-- C1 (claim theorem): a successful parse returns exactly
`min(H, N)` transactions (including when either count is 0), the i-th
taking its textual fields from the i-th HeaderRecord and its numeric
fields from the i-th NumericRecord, paired purely by position. -/
theorem claim1_merge_positional (st : ParserState) (doc : PDFLoad) (st2 : ParserState)
    (ts : List Transaction) (h : parse st doc = (st2, Except.ok ts)) :
    ts.length = min (extractHeaderEntriesFromPageTexts st2.pageTexts).length
      st2.numericEntries.length ∧
    ∀ i (hh : i < (extractHeaderEntriesFromPageTexts st2.pageTexts).length)
        (hn : i < st2.numericEntries.length) (ht : i < ts.length),
      ts.get ⟨i, ht⟩ =
        { dateTime := ((extractHeaderEntriesFromPageTexts st2.pageTexts).get ⟨i, hh⟩).dateTime,
          description := ((extractHeaderEntriesFromPageTexts st2.pageTexts).get ⟨i, hh⟩).description,
          referenceNo := ((extractHeaderEntriesFromPageTexts st2.pageTexts).get ⟨i, hh⟩).referenceNo,
          debit := (st2.numericEntries.get ⟨i, hn⟩).debit,
          credit := (st2.numericEntries.get ⟨i, hn⟩).credit,
          balance := (st2.numericEntries.get ⟨i, hn⟩).balance } := by
  obtain ⟨hts, _⟩ := parse_ok_spec st doc st2 ts h
  subst hts
  constructor
  · simp [mergeEntries]
  · intro i hh hn ht
    simp only [mergeEntries, List.get_eq_getElem, List.getElem_zipWith]

/-- C3 (claim theorem): a clustered row whose joined text contains one of
the five literal markers, or is blank after trimming, or has no date/time
match, emits no NumericRecord — in particular a row containing
"STARTING BALANCE" emits none even when its text also contains a valid
date/time substring. -/
theorem claim3_row_admission (cols : List ColumnInfo) (line : List TextItem)
    (h : containsSub (joinSpace (line.map (fun it => it.str))) "Date and Time" = true ∨
         containsSub (joinSpace (line.map (fun it => it.str))) "STARTING BALANCE" = true ∨
         containsSub (joinSpace (line.map (fun it => it.str))) "ENDING BALANCE" = true ∨
         containsSub (joinSpace (line.map (fun it => it.str))) "Total Debit" = true ∨
         containsSub (joinSpace (line.map (fun it => it.str))) "Total Credit" = true ∨
         (jsTrim (joinSpace (line.map (fun it => it.str))).data).isEmpty = true ∨
         testDateTime (joinSpace (line.map (fun it => it.str))).data = false) :
    processRow cols line = none := by
  unfold processRow
  rcases h with h | h | h | h | h | h | h <;> simp [h, ite_self]

/-- C4 (claim theorem, corrected): header detection keys on only five of
the six column names — "Description" is not part of the `findIndex`
predicate. The fallback set is substituted when no fragment matches any
of those five names, and otherwise the columns are built from the first
matching fragment's row. -/
theorem claim4_header_detection (items : List TextItem) :
    ((∀ it ∈ items, fiveNamePred it.str = false) →
      identifyColumnPositions items = defaultColumnPositions) ∧
    (∀ i (hi : i < items.length),
      fiveNamePred (items.get ⟨i, hi⟩).str = true →
      (∀ j (hj : j < items.length), j < i → fiveNamePred (items.get ⟨j, hj⟩).str = false) →
      identifyColumnPositions items = headerColumnsFrom items (items.get ⟨i, hi⟩)) := by
  constructor
  · intro hall
    have hnone : items.find? (fun it => fiveNamePred it.str) = none := by
      rw [List.find?_eq_none]
      intro x hx
      simp [hall x hx]
    simp [identifyColumnPositions, hnone]
  · intro i hi hp hprev
    have hfind := find?_first (fun it => fiveNamePred it.str) items i hi hp hprev
    simp [identifyColumnPositions, hfind]

/-- C5 (claim theorem, corrected): the front/back partition point is the
Debit column's `minX` when a column named "Debit" exists and its `minX`
is set and nonzero; the literal 500 is used when there is no Debit
column, or its `minX` is unset, or — because JavaScript `||` treats the
number 0 as falsy — when its `minX` is 0. -/
theorem claim5_debit_partition (cols : List ColumnInfo) :
    (∀ c m, cols.find? (fun col => col.name = "Debit") = some c → c.minX = some m →
      m ≠ 0 → debitXOf cols = m) ∧
    (cols.find? (fun col => col.name = "Debit") = none → debitXOf cols = 500) ∧
    (∀ c, cols.find? (fun col => col.name = "Debit") = some c →
      (c.minX = none ∨ c.minX = some 0) → debitXOf cols = 500) := by
  refine ⟨?_, ?_, ?_⟩
  · intro c m hf hm hne
    simp [debitXOf, hf, hm, hne]
  · intro hf
    simp [debitXOf, hf]
  · intro c hf hm
    rcases hm with hm | hm <;> simp [debitXOf, hf, hm]

/-- C6 (claim theorem, corrected): the description of every transaction
returned by a successful parse never contains three consecutive spaces
immediately followed by a run of thirteen digits (the separator plus
reference shape); the lazy `(.+?)` does allow a bare 3-space run inside
the description. -/
theorem claim6_description_separator (st : ParserState) (doc : PDFLoad) (st2 : ParserState)
    (ts : List Transaction) (h : parse st doc = (st2, Except.ok ts)) :
    ∀ t ∈ ts, spacesRefFree t.description := by
  obtain ⟨hts, _⟩ := parse_ok_spec st doc st2 ts h
  subst hts
  intro t ht
  obtain ⟨a, b, ha, _, heq⟩ := mem_zipWith_exists _ _ _ t ht
  subst heq
  simp only [extractHeaderEntriesFromPageTexts] at ha
  exact scanHeaders_desc _ 0 _ a ha

/-- C7 (claim theorem): within one parse, the NumericRecord ordinals in
emission order across all pages, and the HeaderRecord ordinals in match
order, are each exactly 1, 2, 3, ... with no gaps. -/
theorem claim7_ordinal_monotonicity (st : ParserState) (doc : PDFLoad) (st2 : ParserState)
    (ts : List Transaction) (h : parse st doc = (st2, Except.ok ts)) :
    st2.numericEntries.map (fun e => e.entryNo) =
      List.range' 1 st2.numericEntries.length ∧
    ∀ texts : List String,
      (extractHeaderEntriesFromPageTexts texts).map (fun e => e.entryNo) =
        List.range' 1 (extractHeaderEntriesFromPageTexts texts).length := by
  refine ⟨parse_ok_ordinals st doc st2 ts h, ?_⟩
  intro texts
  simp only [extractHeaderEntriesFromPageTexts]
  simpa using scanHeaders_ordinals _ 0 _

/-- C10 (claim theorem): before any parse call the accessors reflect the
constructor's empty initial state. -/
theorem claim10_initial_state :
    getTransactions initialState = [] ∧ getPageTexts initialState = [] ∧
    toCSV initialState = "No transactions found" :=
  ⟨rfl, rfl, rfl⟩

theorem parse_doc1_eq : parse initialState doc1 = (state1, Except.ok [tx1]) := by
  rfl

/-- Witness for C1: `doc1` yields one header record and one numeric
record, so exactly one transaction. -/
theorem claim1_merge_positional_witness :
    ([tx1] : List Transaction).length =
      min (extractHeaderEntriesFromPageTexts state1.pageTexts).length
        state1.numericEntries.length :=
  (claim1_merge_positional initialState doc1 state1 [tx1] parse_doc1_eq).1

/-- Witness for C2 at the fallback column set (six columns). -/
theorem claim2_column_partition_witness :
    ((computeColumnBoundaries defaultColumnPositions).get ⟨0, by decide⟩).minX = some 0 ∧
    ((computeColumnBoundaries defaultColumnPositions).get ⟨5, by decide⟩).maxX =
      XBound.posInf ∧
    ((computeColumnBoundaries defaultColumnPositions).get ⟨0, by decide⟩).maxX =
      XBound.fin ((((computeColumnBoundaries defaultColumnPositions).get ⟨0, by decide⟩).x +
        ((computeColumnBoundaries defaultColumnPositions).get ⟨1, by decide⟩).x) / 2) := by
  obtain ⟨h1, h2, h3, _⟩ := claim2_column_partition defaultColumnPositions
  exact ⟨h1 (by decide), h2 5 (by decide) (by decide), (h3 0 (by decide)).1⟩

/-- Witness for C3: a row containing "STARTING BALANCE" and also a valid
date/time substring emits no numeric record. -/
theorem claim3_row_admission_witness :
    processRow (computeColumnBoundaries defaultColumnPositions) row3 = none ∧
    containsSub (joinSpace (row3.map (fun it => it.str))) "STARTING BALANCE" = true ∧
    testDateTime (joinSpace (row3.map (fun it => it.str))).data = true :=
  ⟨claim3_row_admission _ row3 (Or.inr (Or.inl (by decide))), by decide, by decide⟩

/-- Witness for C4: a page with no header names falls back; a page whose
only fragment says "Debit" builds the columns from that fragment. -/
theorem claim4_header_detection_witness :
    identifyColumnPositions [{ str := "no columns here", x := 0, y := 0, width := 10 }] =
      defaultColumnPositions ∧
    identifyColumnPositions [{ str := "Debit", x := 10, y := 5, width := 80 }] =
      headerColumnsFrom [{ str := "Debit", x := 10, y := 5, width := 80 }]
        (([{ str := "Debit", x := 10, y := 5, width := 80 }] : List TextItem).get
          ⟨0, by decide⟩) := by
  constructor
  · exact (claim4_header_detection _).1 (by decide)
  · exact (claim4_header_detection _).2 0 (by decide) (by decide)
      (fun j hj hj0 => absurd hj0 (Nat.not_lt_zero j))

/-- Counterexample for C4 as stated: the fragment "Description" contains
one of the six column names, yet detection ignores it and substitutes
the fallback set, because the `findIndex` predicate omits
"Description". -/
theorem claim4_header_detection_counterexample :
    identifyColumnPositions [{ str := "Description", x := 5, y := 2, width := 100 }] =
      defaultColumnPositions ∧
    sixColumnNames.any (fun h => containsSub "Description" h) = true :=
  ⟨by decide, by decide⟩

/-- Witness for C5 at the fallback column model, whose Debit `minX` is
the nonzero boundary 450. -/
theorem claim5_debit_partition_witness :
    debitXOf (computeColumnBoundaries defaultColumnPositions) = 450 :=
  (claim5_debit_partition (computeColumnBoundaries defaultColumnPositions)).1
    { name := "Debit", x := 500, width := 80, minX := some 450, maxX := XBound.fin 540 }
    450 (by decide) (by decide) (by decide)

/-- Counterexample for C5 as stated: a detected Column Model consisting
of a single "Debit" column has `minX = 0` after boundary computation, yet
the partition point used is the literal 500, not that `minX`, because
JavaScript `||` treats 0 as falsy. -/
theorem claim5_debit_partition_counterexample :
    (computeColumnBoundaries (identifyColumnPositions
        [{ str := "Debit", x := 10, y := 5, width := 80 }])).find?
      (fun col => col.name = "Debit") =
      some { name := "Debit", x := 10, width := 80, minX := some 0, maxX := XBound.posInf } ∧
    debitXOf (computeColumnBoundaries (identifyColumnPositions
        [{ str := "Debit", x := 10, y := 5, width := 80 }])) = 500 :=
  ⟨by decide, by decide⟩

/-- Witness for C6: the transaction extracted from `doc1`. -/
theorem claim6_description_separator_witness : spacesRefFree tx1.description :=
  claim6_description_separator initialState doc1 state1 [tx1] parse_doc1_eq tx1 (by decide)

/-- Counterexample for C6 as stated: parsing `doc1` succeeds and returns
a transaction whose description "ab   cd" contains the 3-space separator
sequence. -/
theorem claim6_description_separator_counterexample :
    (parse initialState doc1).2 = Except.ok [tx1] ∧
    containsSub tx1.description "   " = true ∧
    tx1.description = "ab   cd" :=
  ⟨congrArg Prod.snd parse_doc1_eq, by decide, rfl⟩

/-- Witness for C7 at `doc1`. -/
theorem claim7_ordinal_monotonicity_witness :
    state1.numericEntries.map (fun e => e.entryNo) =
      List.range' 1 state1.numericEntries.length ∧
    (extractHeaderEntriesFromPageTexts state1.pageTexts).map (fun e => e.entryNo) =
      List.range' 1 (extractHeaderEntriesFromPageTexts state1.pageTexts).length := by
  obtain ⟨h1, h2⟩ := claim7_ordinal_monotonicity initialState doc1 state1 [tx1] parse_doc1_eq
  exact ⟨h1, h2 state1.pageTexts⟩

/-- Witness for C8: the empty state and the one-transaction state. -/
theorem claim8_csv_serialization_witness :
    toCSV initialState = "No transactions found" ∧
    toCSV state1 = csvHeader ++ "\n" ++ joinLines (state1.transactions.map csvLine) :=
  ⟨(claim8_csv_serialization initialState).1 rfl,
    (claim8_csv_serialization state1).2 (by decide)⟩

/-- Witness for C9: a failing document load and a failing second page. -/
theorem claim9_decode_failure_witness :
    parseErrorWrapped (parse initialState (PDFLoad.fail "wrong password")).2 = true ∧
    ((parse initialState (PDFLoad.fail "wrong password")).1.transactions = [] ∨
      (parse initialState (PDFLoad.fail "wrong password")).1.transactions =
        initialState.transactions) ∧
    parseErrorWrapped (parse initialState
      (PDFLoad.ok [Except.ok doc1items, Except.error "page decode failed"])).2 = true := by
  obtain ⟨h1, h2⟩ := claim9_decode_failure initialState (PDFLoad.fail "wrong password") rfl
  obtain ⟨h3, _⟩ := claim9_decode_failure initialState
    (PDFLoad.ok [Except.ok doc1items, Except.error "page decode failed"]) (by decide)
  exact ⟨h1, h2, h3⟩
